import Mathlib

/-!
Verification of the sprite layer / depth assignment subsystem of the
play-nice repository (`src/render_layers.rs` and `src/sprite_render_layers.rs`).

Modelling conventions (shallow embedding):

* Bevy `Entity` identifiers are modelled as `ℕ`; the code only needs equality
  and the derived total order (used as the lexicographic tie-break of the sort
  key `(ZIndexSortKey, Entity)`).
* `f32` arithmetic is modelled exactly over `ℚ`.  The subsystem only adds a
  layer's base coordinate (a small integer from the catalog) to a fractional
  offset `i * (1 / N)` with `i < N`; rational arithmetic captures the ordering
  behaviour of these values.  Rust's `1.0 / 0.0 = ∞` for `N = 0` corresponds
  to `(1 : ℚ) / 0 = 0`; in both semantics the scale factor is never applied to
  any element when the collected list is empty.
* A Rust panic (the `unwrap` in `map_z_indices`) is modelled by `Option`:
  `none` is a panic, `some` is normal completion.
* `GlobalTransform` is modelled by its translation `(x, y, z)`.  The code
  copies the rotation/scale part of the affine verbatim
  (`sprite.transform.affine()` with only `translation.z` reassigned), so that
  part is omitted from the model.
* `BTreeSet<EntityLayer>` is modelled as the `List` of its elements in
  iteration order; `Iterator::max_by` returns the last maximal element, which
  `max_by_z` reproduces with a left fold.
* The render world's `ExtractedSprites` map and the `HashMap<Entity, f32>`
  returned by `map_z_indices` are modelled as association lists; queries
  yield each entity at most once, which theorems state as `Nodup` hypotheses
  where they need it.
-/

/-- The closed catalog of logical layers (`EntityLayer` in
`src/render_layers.rs`), in declaration order. -/
inductive EntityLayer
  | Background
  | Debugging
  | Furniture
  | Object
  | Accent
  | Player
  | HeldObject
  | OfficeLevelFurniture
  | OfficeLevelAccent
  | SuperVisor
deriving DecidableEq, Ord

/-- The nested `as_z_coordinate_internal` function: the fixed base depth of
each logical layer. -/
def as_z_coordinate_internal : EntityLayer → ℚ
  | .Background => -1
  | .Debugging => 0
  | .Furniture => 1
  | .Object => 2
  | .Accent => 3
  | .Player => 20
  | .HeldObject => 21
  | .OfficeLevelFurniture => 22
  | .OfficeLevelAccent => 23
  | .SuperVisor => 24

/-- The `RenderLayers` component: a single logical layer or a set of them
(the set is modelled as the list of its elements in iteration order). -/
inductive RenderLayers
  | Single (layer : EntityLayer)
  | Multi (layers : List EntityLayer)
deriving DecidableEq

/-- One step of Rust's `Iterator::max_by` fold with the comparator
`as_z_coordinate_internal(a).total_cmp(as_z_coordinate_internal(b))`: keep
the new element when its base depth is at least the accumulator's (on ties
`max_by` keeps the later element, hence `≤`). -/
def maxStep (acc y : EntityLayer) : EntityLayer :=
  if as_z_coordinate_internal acc ≤ as_z_coordinate_internal y then y else acc

/-- Rust's `Iterator::max_by` over the layer set: `none` on an empty
iterator, otherwise the last element of maximal base depth. -/
def max_by_z : List EntityLayer → Option EntityLayer
  | [] => none
  | x :: xs => some (xs.foldl maxStep x)

/-- `RenderLayers::as_z_coordinate` (the `LayerIndex` impl): a single layer
reports its own base depth; a multi tag reports the base depth of its
`max_by` element, with `map_or` substituting `0.0` for an empty set. -/
def RenderLayers.as_z_coordinate : RenderLayers → ℚ
  | .Single layer => as_z_coordinate_internal layer
  | .Multi layers => ((max_by_z layers).map as_z_coordinate_internal).getD 0

/-- The `SpriteLayerOptions` resource. -/
structure SpriteLayerOptions where
  y_sort : Bool
deriving DecidableEq

/-- Translation part of a `GlobalTransform`. -/
structure GlobalTransform where
  x : ℚ
  y : ℚ
  z : ℚ
deriving DecidableEq

/-- An `ExtractedSprite` as far as this subsystem touches it: its transform. -/
structure ExtractedSprite where
  transform : GlobalTransform
deriving DecidableEq

/-- `set_sprite_coordinate`: warn (second component, `true` when the log line
fires) if the sprite's pre-existing z is non-zero, then overwrite the
translation's z with the computed coordinate. -/
def set_sprite_coordinate (sprite : ExtractedSprite) (z : ℚ) :
    ExtractedSprite × Bool :=
  (⟨⟨sprite.transform.x, sprite.transform.y, z⟩⟩,
    decide (sprite.transform.z ≠ 0))

/-- The list built at the start of `map_z_indices`: one `(ZIndexSortKey,
Entity)` pair per row of `transform_query`.  A `ZIndexSortKey` stores the
world-space y of the transform; its ordering is reversed (`Reverse` around
`OrderedFloat`), which `keyLE` below accounts for. -/
def keyedEntities (transform_query : List (ℕ × GlobalTransform)) :
    List (ℚ × ℕ) :=
  transform_query.map (fun p => (p.2.y, p.1))

/-- The derived `Ord` on `(ZIndexSortKey, Entity)` pairs:
`Reverse(OrderedFloat(y))` lexicographically followed by the entity id, so a
pair with greater y (or equal y and smaller id) sorts first. -/
def keyLEp (a b : ℚ × ℕ) : Prop :=
  b.1 < a.1 ∨ (a.1 = b.1 ∧ a.2 ≤ b.2)

instance : DecidableRel keyLEp := fun a b => by
  unfold keyLEp; infer_instance

/-- The sorted list produced by `all_entities.par_sort_unstable()`.  The key
order is a strict total order on the pairs, so the unstable parallel sort has
exactly one possible output, realised here with insertion sort (that every
sorted permutation coincides with it is proved via `MapZIndicesSpec`). -/
def sortedEntities (transform_query : List (ℕ × GlobalTransform)) :
    List (ℚ × ℕ) :=
  (keyedEntities transform_query).insertionSort keyLEp

/-- The `enumerate().map(...).collect()` tail of `map_z_indices`, fused into
one recursion carrying the enumeration index `i`: each entity is mapped to
its layer's base coordinate plus `i * scale`; a failing layer lookup is the
`unwrap` panic, modelled as `none`. -/
def assignZ (layer_query : ℕ → Option RenderLayers) (scale : ℚ) :
    ℕ → List (ℚ × ℕ) → Option (List (ℕ × ℚ))
  | _, [] => some []
  | i, (_, e) :: rest =>
    match layer_query e with
    | some layer =>
      (assignZ layer_query scale (i + 1) rest).map
        (fun m => (e, layer.as_z_coordinate + (i : ℚ) * scale) :: m)
    | none => none

/-- `map_z_indices`: collect the keyed entities, sort them, and assign each
the base depth of its layer plus `i * (1 / N)` where `i` is its sorted
position and `N` the number of collected entities. -/
def map_z_indices (transform_query : List (ℕ × GlobalTransform))
    (layer_query : ℕ → Option RenderLayers) : Option (List (ℕ × ℚ)) :=
  assignZ layer_query (1 / ((keyedEntities transform_query).length : ℚ)) 0
    (sortedEntities transform_query)

/-- The mutation loop over `extracted_sprites.sprites.iter_mut()` shared by
both branches of `update_sprite_z_coordinate`: for each sprite whose entity
has a computed coordinate, overwrite its z; the second component collects the
entities for which the warning in `set_sprite_coordinate` fired, in iteration
order. -/
def processSprites (sprites : List (ℕ × ExtractedSprite))
    (zFor : ℕ → Option ℚ) :
    List (ℕ × ExtractedSprite) × List ℕ :=
  (sprites.map (fun p =>
      match zFor p.1 with
      | some z => (p.1, (set_sprite_coordinate p.2 z).1)
      | none => p),
    sprites.filterMap (fun p =>
      match zFor p.1 with
      | some z => if (set_sprite_coordinate p.2 z).2 then some p.1 else none
      | none => none))

/-- `update_sprite_z_coordinate`: with y-sort enabled, compute the dynamic
depth map and apply it to the extracted sprites (looking each sprite entity
up in the map); otherwise write each tagged sprite's layer base depth
directly. -/
def update_sprite_z_coordinate (extracted_sprites : List (ℕ × ExtractedSprite))
    (options : SpriteLayerOptions)
    (transform_query : List (ℕ × GlobalTransform))
    (layer_query : ℕ → Option RenderLayers) :
    Option (List (ℕ × ExtractedSprite) × List ℕ) :=
  if options.y_sort then
    (map_z_indices transform_query layer_query).map
      (fun zmap => processSprites extracted_sprites (fun e => zmap.lookup e))
  else
    some (processSprites extracted_sprites
      (fun e => (layer_query e).map RenderLayers.as_z_coordinate))

/-- The coordinate the frame assigns to entity `e`, if any: the dynamic map's
entry under y-sort, the layer's base depth otherwise. -/
def zForEntity (options : SpriteLayerOptions)
    (transform_query : List (ℕ × GlobalTransform))
    (layer_query : ℕ → Option RenderLayers) (e : ℕ) : Option ℚ :=
  if options.y_sort then
    (map_z_indices transform_query layer_query).bind (fun zmap => zmap.lookup e)
  else
    (layer_query e).map RenderLayers.as_z_coordinate

/-- Any possible result of `map_z_indices` when the in-place
`par_sort_unstable` is left unspecified: some permutation of the keyed
entities that is sorted under the key order, fed to the offset-assignment
loop.  `map_z_indices` itself realises this specification with `mergeSort`. -/
def MapZIndicesSpec (transform_query : List (ℕ × GlobalTransform))
    (layer_query : ℕ → Option RenderLayers)
    (r : Option (List (ℕ × ℚ))) : Prop :=
  ∃ sorted : List (ℚ × ℕ),
    sorted.Perm (keyedEntities transform_query) ∧
    List.Sorted keyLEp sorted ∧
    assignZ layer_query (1 / ((keyedEntities transform_query).length : ℚ)) 0
      sorted = r


/-! ### Order-theoretic facts about the sort key -/

instance : IsTrans (ℚ × ℕ) keyLEp where
  trans a b c hab hbc := by
    rcases hab with h | ⟨he, hn⟩ <;> rcases hbc with h2 | ⟨he2, hn2⟩
    · exact Or.inl (h2.trans h)
    · exact Or.inl (he2 ▸ h)
    · exact Or.inl (by rw [he]; exact h2)
    · exact Or.inr ⟨he.trans he2, hn.trans hn2⟩

instance : IsTotal (ℚ × ℕ) keyLEp where
  total a b := by
    rcases lt_trichotomy a.1 b.1 with h | h | h
    · exact Or.inr (Or.inl h)
    · rcases Nat.le_total a.2 b.2 with hn | hn
      · exact Or.inl (Or.inr ⟨h, hn⟩)
      · exact Or.inr (Or.inr ⟨h.symm, hn⟩)
    · exact Or.inl (Or.inl h)

instance : IsAntisymm (ℚ × ℕ) keyLEp where
  antisymm a b hab hba := by
    rcases hab with h | ⟨he, hn⟩
    · rcases hba with h2 | ⟨he2, _⟩
      · exact absurd h (lt_asymm h2)
      · exact absurd h (by rw [he2]; exact lt_irrefl _)
    · rcases hba with h2 | ⟨_, hn2⟩
      · exact absurd h2 (by rw [he]; exact lt_irrefl _)
      · exact Prod.ext_iff.mpr ⟨he, le_antisymm hn hn2⟩

theorem sortedEntities_sorted (tq : List (ℕ × GlobalTransform)) :
    List.Sorted keyLEp (sortedEntities tq) :=
  List.sorted_insertionSort keyLEp _

theorem sortedEntities_perm (tq : List (ℕ × GlobalTransform)) :
    (sortedEntities tq).Perm (keyedEntities tq) :=
  List.perm_insertionSort keyLEp _

theorem keyedEntities_length (tq : List (ℕ × GlobalTransform)) :
    (keyedEntities tq).length = tq.length :=
  List.length_map _ _

theorem sortedEntities_length (tq : List (ℕ × GlobalTransform)) :
    (sortedEntities tq).length = tq.length := by
  rw [(sortedEntities_perm tq).length_eq, keyedEntities_length]

/-- In a list sorted by the key order, an entry with strictly greater y
comes strictly earlier. -/
theorem sorted_index_lt {l : List (ℚ × ℕ)} (hs : List.Sorted keyLEp l)
    {j1 j2 : ℕ} {a b : ℚ × ℕ} (h1 : l[j1]? = some a) (h2 : l[j2]? = some b)
    (hy : b.1 < a.1) : j1 < j2 := by
  by_contra hc
  push_neg at hc
  obtain ⟨hl1, he1⟩ := List.getElem?_eq_some.mp h1
  obtain ⟨hl2, he2⟩ := List.getElem?_eq_some.mp h2
  rcases Nat.lt_or_ge j2 j1 with hlt | hge
  · have hp := List.pairwise_iff_get.mp hs ⟨j2, hl2⟩ ⟨j1, hl1⟩ hlt
    simp only [List.get_eq_getElem, he1, he2] at hp
    rcases hp with h | ⟨heq, _⟩
    · exact absurd hy (lt_asymm h)
    · rw [heq] at hy; exact lt_irrefl _ hy
  · have hj : j1 = j2 := le_antisymm hge hc
    rw [hj, h2] at h1
    have hab : b = a := Option.some.inj h1
    rw [hab] at hy
    exact lt_irrefl _ hy

/-- In a list sorted by the key order, y is non-increasing along the list
(greater world y sorts first). -/
theorem sorted_y_antitone {l : List (ℚ × ℕ)} (hs : List.Sorted keyLEp l)
    {j1 j2 : ℕ} {a b : ℚ × ℕ} (h1 : l[j1]? = some a) (h2 : l[j2]? = some b)
    (hj : j1 < j2) : b.1 ≤ a.1 := by
  obtain ⟨hl1, he1⟩ := List.getElem?_eq_some.mp h1
  obtain ⟨hl2, he2⟩ := List.getElem?_eq_some.mp h2
  have hp := List.pairwise_iff_get.mp hs ⟨j1, hl1⟩ ⟨j2, hl2⟩ hj
  simp only [List.get_eq_getElem, he1, he2] at hp
  rcases hp with h | ⟨heq, _⟩
  · exact le_of_lt h
  · exact le_of_eq heq.symm

/-! ### The catalog takes integer values -/

theorem as_z_coordinate_internal_int (l : EntityLayer) :
    ∃ k : ℤ, as_z_coordinate_internal l = (k : ℚ) := by
  cases l with
  | Background => exact ⟨-1, by norm_num [as_z_coordinate_internal]⟩
  | Debugging => exact ⟨0, by norm_num [as_z_coordinate_internal]⟩
  | Furniture => exact ⟨1, by norm_num [as_z_coordinate_internal]⟩
  | Object => exact ⟨2, by norm_num [as_z_coordinate_internal]⟩
  | Accent => exact ⟨3, by norm_num [as_z_coordinate_internal]⟩
  | Player => exact ⟨20, by norm_num [as_z_coordinate_internal]⟩
  | HeldObject => exact ⟨21, by norm_num [as_z_coordinate_internal]⟩
  | OfficeLevelFurniture => exact ⟨22, by norm_num [as_z_coordinate_internal]⟩
  | OfficeLevelAccent => exact ⟨23, by norm_num [as_z_coordinate_internal]⟩
  | SuperVisor => exact ⟨24, by norm_num [as_z_coordinate_internal]⟩

theorem as_z_coordinate_int (r : RenderLayers) :
    ∃ k : ℤ, r.as_z_coordinate = (k : ℚ) := by
  cases r with
  | Single l => exact as_z_coordinate_internal_int l
  | Multi layers =>
    cases h : max_by_z layers with
    | none =>
      exact ⟨0, by simp [RenderLayers.as_z_coordinate, h]⟩
    | some x =>
      obtain ⟨k, hk⟩ := as_z_coordinate_internal_int x
      exact ⟨k, by simp [RenderLayers.as_z_coordinate, h, hk]⟩

/-- Distinct integer-valued base depths are at least one apart: the layer
catalog reserves a full unit band per layer. -/
theorem as_z_coordinate_gap {r1 r2 : RenderLayers}
    (h : r1.as_z_coordinate < r2.as_z_coordinate) :
    r1.as_z_coordinate + 1 ≤ r2.as_z_coordinate := by
  obtain ⟨k1, hk1⟩ := as_z_coordinate_int r1
  obtain ⟨k2, hk2⟩ := as_z_coordinate_int r2
  rw [hk1, hk2] at h ⊢
  have hk : k1 < k2 := by exact_mod_cast h
  have : k1 + 1 ≤ k2 := hk
  exact_mod_cast this

/-! ### The `max_by` fold -/

theorem foldl_maxStep_mem (xs : List EntityLayer) (a : EntityLayer) :
    xs.foldl maxStep a ∈ a :: xs := by
  induction xs generalizing a with
  | nil => simp
  | cons y ys ih =>
    have h := ih (maxStep a y)
    simp only [List.foldl_cons]
    rcases List.mem_cons.mp h with h1 | h1
    · rw [h1]
      unfold maxStep
      split
      · exact List.mem_cons_of_mem _ (List.mem_cons_self _ _)
      · exact List.mem_cons_self _ _
    · exact List.mem_cons_of_mem _ (List.mem_cons_of_mem _ h1)

theorem foldl_maxStep_le (xs : List EntityLayer) (a : EntityLayer) :
    as_z_coordinate_internal a ≤ as_z_coordinate_internal (xs.foldl maxStep a) ∧
    ∀ y ∈ xs,
      as_z_coordinate_internal y ≤ as_z_coordinate_internal (xs.foldl maxStep a) := by
  induction xs generalizing a with
  | nil => simp
  | cons y ys ih =>
    obtain ⟨h1, h2⟩ := ih (maxStep a y)
    have hstep_a : as_z_coordinate_internal a ≤ as_z_coordinate_internal (maxStep a y) := by
      unfold maxStep; split
      · assumption
      · exact le_refl _
    have hstep_y : as_z_coordinate_internal y ≤ as_z_coordinate_internal (maxStep a y) := by
      unfold maxStep; split
      · exact le_refl _
      · exact le_of_not_le (by assumption)
    refine ⟨?_, ?_⟩
    · simpa using le_trans hstep_a h1
    · intro y2 hy2
      rcases List.mem_cons.mp hy2 with h3 | h3
      · subst h3
        simpa using le_trans hstep_y h1
      · simpa using h2 y2 h3

theorem max_by_z_mem {layers : List EntityLayer} {x : EntityLayer}
    (h : max_by_z layers = some x) : x ∈ layers := by
  cases layers with
  | nil => simp [max_by_z] at h
  | cons a xs =>
    have hx : xs.foldl maxStep a = x := by
      simpa [max_by_z] using h
    rw [← hx]
    exact foldl_maxStep_mem xs a

theorem max_by_z_le {layers : List EntityLayer} {x : EntityLayer}
    (h : max_by_z layers = some x) :
    ∀ y ∈ layers, as_z_coordinate_internal y ≤ as_z_coordinate_internal x := by
  cases layers with
  | nil => simp [max_by_z] at h
  | cons a xs =>
    have hx : xs.foldl maxStep a = x := by
      simpa [max_by_z] using h
    obtain ⟨h1, h2⟩ := foldl_maxStep_le xs a
    intro y hy
    rcases List.mem_cons.mp hy with h3 | h3
    · subst h3; rw [← hx]; exact h1
    · rw [← hx]; exact h2 y h3

/-! ### The offset-assignment loop -/

theorem assignZ_positional (lq : ℕ → Option RenderLayers) (scale : ℚ) :
    ∀ (l : List (ℚ × ℕ)) (i0 : ℕ) (m : List (ℕ × ℚ)),
      assignZ lq scale i0 l = some m →
      m.length = l.length ∧
      ∀ j y e, l[j]? = some (y, e) →
        ∃ layer, lq e = some layer ∧
          m[j]? =
            some (e, layer.as_z_coordinate + ((i0 + j : ℕ) : ℚ) * scale) := by
  intro l
  induction l with
  | nil =>
    intro i0 m hm
    simp only [assignZ, Option.some.injEq] at hm
    subst hm
    refine ⟨rfl, ?_⟩
    intro j y e hj
    simp at hj
  | cons p rest ih =>
    intro i0 m hm
    obtain ⟨y0, e0⟩ := p
    simp only [assignZ] at hm
    cases hlq : lq e0 with
    | none => rw [hlq] at hm; simp at hm
    | some layer =>
      rw [hlq] at hm
      obtain ⟨m1, hm1, hm2⟩ := Option.map_eq_some'.mp hm
      obtain ⟨hlen, hget⟩ := ih (i0 + 1) m1 hm1
      subst hm2
      refine ⟨by simp [hlen], ?_⟩
      intro j y e hj
      cases j with
      | zero =>
        simp only [List.getElem?_cons_zero, Option.some.injEq] at hj
        obtain ⟨hy, he⟩ := Prod.mk.injEq _ _ _ _ ▸ hj
        refine ⟨layer, by rw [← he]; exact hlq, ?_⟩
        simp [← he]
      | succ j2 =>
        simp only [List.getElem?_cons_succ] at hj ⊢
        obtain ⟨layer2, hlq2, hm2⟩ := hget j2 y e hj
        refine ⟨layer2, hlq2, ?_⟩
        rw [hm2]
        have hcast : ((i0 + 1 + j2 : ℕ) : ℚ) = ((i0 + (j2 + 1) : ℕ) : ℚ) := by
          congr 1
          omega
        rw [hcast]

theorem assignZ_isSome (lq : ℕ → Option RenderLayers) (scale : ℚ) :
    ∀ (l : List (ℚ × ℕ)) (i0 : ℕ),
      (∀ p ∈ l, (lq p.2).isSome) → (assignZ lq scale i0 l).isSome := by
  intro l
  induction l with
  | nil => intro i0 _; simp [assignZ]
  | cons p rest ih =>
    intro i0 hall
    obtain ⟨y0, e0⟩ := p
    have h0 : (lq e0).isSome := hall (y0, e0) (List.mem_cons_self _ _)
    obtain ⟨layer, hlayer⟩ := Option.isSome_iff_exists.mp h0
    have hrest := ih (i0 + 1) (fun p hp => hall p (List.mem_cons_of_mem _ hp))
    obtain ⟨m1, hm1⟩ := Option.isSome_iff_exists.mp hrest
    simp [assignZ, hlayer, hm1]

/-- Positions of entries with equal image under `f` coincide in a list whose
image under `f` has no duplicates. -/
theorem index_unique_map {α β : Type} (f : α → β) {l : List α}
    (hn : (l.map f).Nodup) {j1 j2 : ℕ} {a b : α}
    (h1 : l[j1]? = some a) (h2 : l[j2]? = some b) (he : f a = f b) : j1 = j2 := by
  have ha : (l.map f)[j1]? = some (f a) := by
    rw [List.getElem?_map, h1]; rfl
  have hb : (l.map f)[j2]? = some (f b) := by
    rw [List.getElem?_map, h2]; rfl
  have hlen : j1 < (l.map f).length := by
    rw [List.length_map]
    exact (List.getElem?_eq_some.mp h1).1
  exact List.getElem?_inj hlen hn (by rw [ha, hb, he])

/-- The entity column of the assigned map is the entity column of the sorted
input. -/
theorem assignZ_map_fst (lq : ℕ → Option RenderLayers) (scale : ℚ) :
    ∀ (l : List (ℚ × ℕ)) (i0 : ℕ) (m : List (ℕ × ℚ)),
      assignZ lq scale i0 l = some m →
      m.map Prod.fst = l.map Prod.snd := by
  intro l
  induction l with
  | nil =>
    intro i0 m hm
    simp only [assignZ, Option.some.injEq] at hm
    subst hm
    rfl
  | cons p rest ih =>
    intro i0 m hm
    obtain ⟨y0, e0⟩ := p
    simp only [assignZ] at hm
    cases hlq : lq e0 with
    | none => rw [hlq] at hm; simp at hm
    | some layer =>
      rw [hlq] at hm
      obtain ⟨m1, hm1, hm2⟩ := Option.map_eq_some'.mp hm
      subst hm2
      simp [ih (i0 + 1) m1 hm1]

/-! ### Offset arithmetic -/

theorem offset_nonneg (j N : ℕ) : 0 ≤ (j : ℚ) * (1 / (N : ℚ)) := by
  positivity

theorem offset_lt_one {j N : ℕ} (h : j < N) : (j : ℚ) * (1 / (N : ℚ)) < 1 := by
  have hN : 0 < N := lt_of_le_of_lt (Nat.zero_le j) h
  have hNq : (0 : ℚ) < (N : ℚ) := by exact_mod_cast hN
  have hj : (j : ℚ) < (N : ℚ) := by exact_mod_cast h
  rw [mul_one_div, div_lt_one hNq]
  exact hj

theorem offset_strict_mono {j1 j2 N : ℕ} (h : j1 < j2) (h2 : j2 < N) :
    (j1 : ℚ) * (1 / (N : ℚ)) < (j2 : ℚ) * (1 / (N : ℚ)) := by
  have hN : 0 < N := lt_of_le_of_lt (Nat.zero_le j2) h2
  have hNq : (0 : ℚ) < (N : ℚ) := by exact_mod_cast hN
  have hj : (j1 : ℚ) < (j2 : ℚ) := by exact_mod_cast h
  exact mul_lt_mul_of_pos_right hj (by positivity)

/-! ### Bridging `map_z_indices` to positional data -/

theorem keyedEntities_map_snd (tq : List (ℕ × GlobalTransform)) :
    (keyedEntities tq).map Prod.snd = tq.map Prod.fst := by
  simp [keyedEntities, List.map_map, Function.comp]

theorem sortedEntities_nodup_snd {tq : List (ℕ × GlobalTransform)}
    (h : (tq.map Prod.fst).Nodup) :
    ((sortedEntities tq).map Prod.snd).Nodup := by
  have hp : ((sortedEntities tq).map Prod.snd).Perm (tq.map Prod.fst) := by
    rw [← keyedEntities_map_snd]
    exact (sortedEntities_perm tq).map Prod.snd
  exact hp.symm.nodup h

theorem map_z_indices_positional {tq : List (ℕ × GlobalTransform)}
    {lq : ℕ → Option RenderLayers} {m : List (ℕ × ℚ)}
    (hm : map_z_indices tq lq = some m) :
    m.length = tq.length ∧
    ∀ (j : ℕ) (y : ℚ) (e : ℕ), (sortedEntities tq)[j]? = some (y, e) →
      ∃ layer, lq e = some layer ∧
        m[j]? =
          some (e, layer.as_z_coordinate + (j : ℚ) * (1 / (tq.length : ℚ))) := by
  simp only [map_z_indices] at hm
  obtain ⟨hlen, hpos⟩ := assignZ_positional lq _ (sortedEntities tq) 0 m hm
  refine ⟨by rw [hlen, sortedEntities_length], ?_⟩
  intro j y e hj
  obtain ⟨layer, hlayer, hmj⟩ := hpos j y e hj
  refine ⟨layer, hlayer, ?_⟩
  rw [hmj]
  simp only [Nat.zero_add, keyedEntities_length]

theorem map_z_indices_map_fst {tq : List (ℕ × GlobalTransform)}
    {lq : ℕ → Option RenderLayers} {m : List (ℕ × ℚ)}
    (hm : map_z_indices tq lq = some m) :
    m.map Prod.fst = (sortedEntities tq).map Prod.snd := by
  simp only [map_z_indices] at hm
  exact assignZ_map_fst lq _ (sortedEntities tq) 0 m hm

/-- Every entry of the assigned map comes from a position of the sorted
order: its coordinate is its layer's base depth plus its sorted index times
`1 / N`. -/
theorem map_z_indices_mem {tq : List (ℕ × GlobalTransform)}
    {lq : ℕ → Option RenderLayers} {m : List (ℕ × ℚ)}
    (hm : map_z_indices tq lq = some m) {e : ℕ} {z : ℚ} (hz : (e, z) ∈ m) :
    ∃ (j : ℕ) (y : ℚ) (layer : RenderLayers),
      j < tq.length ∧ (sortedEntities tq)[j]? = some (y, e) ∧
      lq e = some layer ∧
      z = layer.as_z_coordinate + (j : ℚ) * (1 / (tq.length : ℚ)) := by
  obtain ⟨hlen, hpos⟩ := map_z_indices_positional hm
  obtain ⟨j, hj⟩ := List.mem_iff_getElem?.mp hz
  have hjm : j < m.length := (List.getElem?_eq_some.mp hj).1
  have hjs : j < (sortedEntities tq).length := by
    rw [sortedEntities_length, ← hlen]
    exact hjm
  have hsj : (sortedEntities tq)[j]? =
      some (((sortedEntities tq).get ⟨j, hjs⟩).1,
            ((sortedEntities tq).get ⟨j, hjs⟩).2) := by
    rw [List.getElem?_eq_getElem hjs]
    simp [List.get_eq_getElem]
  obtain ⟨layer, hlayer, hmj⟩ := hpos j _ _ hsj
  rw [hj] at hmj
  have hpair := Option.some.inj hmj
  have he : e = ((sortedEntities tq).get ⟨j, hjs⟩).2 := congrArg Prod.fst hpair
  have hzv : z =
      layer.as_z_coordinate + (j : ℚ) * (1 / (tq.length : ℚ)) :=
    congrArg Prod.snd hpair
  refine ⟨j, ((sortedEntities tq).get ⟨j, hjs⟩).1, layer,
    by rw [← sortedEntities_length tq]; exact hjs, ?_,
    by rw [he]; exact hlayer, hzv⟩
  rw [hsj, ← he]

/-! ### Example inputs used by witnesses -/

/-- Two entities in distinct layers: entity 1 (Background) at y = 0, entity 2
(Object) at y = 5. -/
def exTQ2 : List (ℕ × GlobalTransform) := [(1, ⟨0, 0, 0⟩), (2, ⟨0, 5, 0⟩)]

def exLQ2 : ℕ → Option RenderLayers := fun e =>
  if e = 1 then some (.Single .Background)
  else if e = 2 then some (.Single .Object)
  else none

/-- Three entities tagged Player at world y = 10, 5, 0. -/
def exTQ3 : List (ℕ × GlobalTransform) :=
  [(1, ⟨0, 10, 0⟩), (2, ⟨0, 5, 0⟩), (3, ⟨0, 0, 0⟩)]

def exLQplayer : ℕ → Option RenderLayers := fun _ => some (.Single .Player)

/-- The depth map the dynamic pass produces on `exTQ3`. -/
def exM3 : List (ℕ × ℚ) := [(1, 20), (2, 61/3), (3, 62/3)]

theorem exM3_eval : map_z_indices exTQ3 exLQplayer = some exM3 := by
  norm_num [map_z_indices, sortedEntities, keyedEntities, assignZ, exTQ3,
    exLQplayer, exM3, RenderLayers.as_z_coordinate, as_z_coordinate_internal,
    List.insertionSort, List.orderedInsert, keyLEp]

/-! ### The claims -/

/-- C1: in dynamic (y-sort) mode, whenever two entities of the assigned map
carry layer tags with strictly ordered base depths, their assigned final
depths are strictly ordered the same way, for any world positions and any
number of entities in the frame: the fractional y-sort offset never pushes a
depth into or past the next layer's base depth. -/
theorem C1_cross_layer_containment
    (tq : List (ℕ × GlobalTransform)) (lq : ℕ → Option RenderLayers)
    (m : List (ℕ × ℚ)) (hm : map_z_indices tq lq = some m)
    (e1 e2 : ℕ) (z1 z2 : ℚ)
    (h1 : (e1, z1) ∈ m) (h2 : (e2, z2) ∈ m)
    (r1 r2 : RenderLayers) (hl1 : lq e1 = some r1) (hl2 : lq e2 = some r2)
    (hlt : r1.as_z_coordinate < r2.as_z_coordinate) :
    z1 < z2 := by
  obtain ⟨j1, y1, L1, hj1, _, hL1, hz1⟩ := map_z_indices_mem hm h1
  obtain ⟨j2, y2, L2, hj2, _, hL2, hz2⟩ := map_z_indices_mem hm h2
  have he1 : L1 = r1 := Option.some.inj (hL1.symm.trans hl1)
  have he2 : L2 = r2 := Option.some.inj (hL2.symm.trans hl2)
  rw [he1] at hz1
  rw [he2] at hz2
  have hlt1 : z1 < r1.as_z_coordinate + 1 := by
    rw [hz1]
    exact add_lt_add_left (offset_lt_one hj1) _
  have hle2 : r2.as_z_coordinate ≤ z2 := by
    rw [hz2]
    exact le_add_of_nonneg_right (offset_nonneg _ _)
  exact lt_of_lt_of_le (lt_of_lt_of_le hlt1 (as_z_coordinate_gap hlt)) hle2

theorem C1_witness :
    map_z_indices exTQ2 exLQ2 = some [(2, 2), (1, -1/2)] ∧
    ((-1/2 : ℚ) < 2) := by
  have hm : map_z_indices exTQ2 exLQ2 = some [(2, 2), (1, -1/2)] := by
    norm_num [map_z_indices, sortedEntities, keyedEntities, assignZ, exTQ2,
      exLQ2, RenderLayers.as_z_coordinate, as_z_coordinate_internal,
      List.insertionSort, List.orderedInsert, keyLEp]
  refine ⟨hm, ?_⟩
  exact C1_cross_layer_containment exTQ2 exLQ2 _ hm 1 2 (-1/2) 2
    (List.mem_cons_of_mem _ (List.mem_cons_self _ _))
    (List.mem_cons_self _ _)
    (.Single .Background) (.Single .Object) rfl rfl
    (by norm_num [RenderLayers.as_z_coordinate, as_z_coordinate_internal])

/-- C2: in dynamic (y-sort) mode, two entities of one snapshot that share a
base depth and are ordered by strictly descending world y receive strictly
increasing final depths — no ties and no inversions inside a layer, for any
number of entities. -/
theorem C2_intra_layer_monotone
    (tq : List (ℕ × GlobalTransform)) (lq : ℕ → Option RenderLayers)
    (m : List (ℕ × ℚ)) (hm : map_z_indices tq lq = some m)
    (hids : (tq.map Prod.fst).Nodup)
    (e1 e2 : ℕ) (t1 t2 : GlobalTransform)
    (h1 : (e1, t1) ∈ tq) (h2 : (e2, t2) ∈ tq)
    (hy : t2.y < t1.y)
    (r1 r2 : RenderLayers) (hl1 : lq e1 = some r1) (hl2 : lq e2 = some r2)
    (hsame : r1.as_z_coordinate = r2.as_z_coordinate)
    (z1 z2 : ℚ) (hz1 : (e1, z1) ∈ m) (hz2 : (e2, z2) ∈ m) :
    z1 < z2 := by
  have hnodup : ((sortedEntities tq).map Prod.snd).Nodup :=
    sortedEntities_nodup_snd hids
  -- the two rows of the snapshot, as sorted entries with explicit indices
  have hk1 : (t1.y, e1) ∈ sortedEntities tq :=
    ((sortedEntities_perm tq).mem_iff).mpr
      (List.mem_map.mpr ⟨(e1, t1), h1, rfl⟩)
  have hk2 : (t2.y, e2) ∈ sortedEntities tq :=
    ((sortedEntities_perm tq).mem_iff).mpr
      (List.mem_map.mpr ⟨(e2, t2), h2, rfl⟩)
  obtain ⟨i1, hi1⟩ := List.mem_iff_getElem?.mp hk1
  obtain ⟨i2, hi2⟩ := List.mem_iff_getElem?.mp hk2
  -- the two entries of the assigned map
  obtain ⟨j1, y1, L1, hj1, hs1, hL1, hzv1⟩ := map_z_indices_mem hm hz1
  obtain ⟨j2, y2, L2, hj2, hs2, hL2, hzv2⟩ := map_z_indices_mem hm hz2
  -- entity ids pin the indices: j1 = i1 and j2 = i2
  have hj1i1 : j1 = i1 := index_unique_map Prod.snd hnodup hs1 hi1 rfl
  have hj2i2 : j2 = i2 := index_unique_map Prod.snd hnodup hs2 hi2 rfl
  subst hj1i1
  subst hj2i2
  -- descending world y forces i1 before i2 in the sorted order
  have hlt : j1 < j2 :=
    sorted_index_lt (sortedEntities_sorted tq) hi1 hi2 hy
  have he1 : L1 = r1 := Option.some.inj (hL1.symm.trans hl1)
  have he2 : L2 = r2 := Option.some.inj (hL2.symm.trans hl2)
  rw [hzv1, hzv2, he1, he2, hsame]
  exact add_lt_add_left (offset_strict_mono hlt hj2) _

theorem C2_witness :
    map_z_indices exTQ3 exLQplayer = some exM3 ∧ ((20 : ℚ) < 61/3) := by
  refine ⟨exM3_eval, ?_⟩
  exact C2_intra_layer_monotone exTQ3 exLQplayer exM3 exM3_eval
    (by decide) 1 2 ⟨0, 10, 0⟩ ⟨0, 5, 0⟩
    (List.mem_cons_self _ _)
    (List.mem_cons_of_mem _ (List.mem_cons_self _ _))
    (by norm_num)
    (.Single .Player) (.Single .Player) rfl rfl rfl
    20 (61/3)
    (List.mem_cons_self _ _)
    (List.mem_cons_of_mem _ (List.mem_cons_self _ _))

theorem map_z_indices_isSpec (tq : List (ℕ × GlobalTransform))
    (lq : ℕ → Option RenderLayers) :
    MapZIndicesSpec tq lq (map_z_indices tq lq) :=
  ⟨sortedEntities tq, sortedEntities_perm tq, sortedEntities_sorted tq, rfl⟩

/-- C3: dynamic mode is deterministic.  Any run of the internally parallel
unstable sort yields some sorted permutation of the keyed snapshot; because
the key order (reversed y, then entity id) is antisymmetric, all sorted
permutations are equal, so any two evaluations of the depth assignment on an
identical snapshot — ties on world y included — produce the identical result;
in particular two consecutive no-op frames get identical depths. -/
theorem C3_determinism (tq : List (ℕ × GlobalTransform))
    (lq : ℕ → Option RenderLayers) :
    MapZIndicesSpec tq lq (map_z_indices tq lq) ∧
    ∀ r1 r2, MapZIndicesSpec tq lq r1 → MapZIndicesSpec tq lq r2 →
      r1 = r2 := by
  refine ⟨map_z_indices_isSpec tq lq, ?_⟩
  rintro r1 r2 ⟨s1, hp1, hs1, ha1⟩ ⟨s2, hp2, hs2, ha2⟩
  have hs : s1 = s2 :=
    List.eq_of_perm_of_sorted (hp1.trans hp2.symm) hs1 hs2
  rw [← ha1, ← ha2, hs]

/-- Two entities that tie exactly on world y (deciding the order falls to the
entity id tie-break). -/
def exTQtie : List (ℕ × GlobalTransform) := [(5, ⟨0, 3, 0⟩), (4, ⟨0, 3, 0⟩)]

def exLQdebug : ℕ → Option RenderLayers := fun _ => some (.Single .Debugging)

theorem C3_witness :
    map_z_indices exTQtie exLQdebug = some [(4, 0), (5, 1/2)] :=
  (C3_determinism exTQtie exLQdebug).2 _ _
    (C3_determinism exTQtie exLQdebug).1
    ⟨[(3, 4), (3, 5)], by decide, by decide,
      by norm_num [assignZ, keyedEntities, exTQtie, exLQdebug,
        RenderLayers.as_z_coordinate, as_z_coordinate_internal]⟩

/-- C4: in dynamic mode the sorted order has non-increasing world y (greater
y sorts first), the entity at sorted position `j` receives its base depth
plus the offset `j * (1 / N)`, and those offsets lie in `[0, 1)` and increase
strictly along the sorted sequence. -/
theorem C4_positions_and_offsets
    (tq : List (ℕ × GlobalTransform)) (lq : ℕ → Option RenderLayers)
    (m : List (ℕ × ℚ)) (hm : map_z_indices tq lq = some m) :
    (∀ (j1 j2 : ℕ) (a b : ℚ × ℕ), j1 < j2 →
        (sortedEntities tq)[j1]? = some a →
        (sortedEntities tq)[j2]? = some b → b.1 ≤ a.1) ∧
    (∀ (j : ℕ) (y : ℚ) (e : ℕ), (sortedEntities tq)[j]? = some (y, e) →
        ∃ layer, lq e = some layer ∧
          m[j]? =
            some (e, layer.as_z_coordinate + (j : ℚ) * (1 / (tq.length : ℚ)))) ∧
    (∀ j : ℕ, j < tq.length →
        0 ≤ (j : ℚ) * (1 / (tq.length : ℚ)) ∧
        (j : ℚ) * (1 / (tq.length : ℚ)) < 1) ∧
    (∀ j1 j2 : ℕ, j1 < j2 → j2 < tq.length →
        (j1 : ℚ) * (1 / (tq.length : ℚ)) <
        (j2 : ℚ) * (1 / (tq.length : ℚ))) := by
  refine ⟨?_, (map_z_indices_positional hm).2, ?_, ?_⟩
  · intro j1 j2 a b hj h1 h2
    exact sorted_y_antitone (sortedEntities_sorted tq) h1 h2 hj
  · intro j hj
    exact ⟨offset_nonneg _ _, offset_lt_one hj⟩
  · intro j1 j2 h h2
    exact offset_strict_mono h h2

theorem C4_witness :
    map_z_indices exTQ3 exLQplayer = some exM3 ∧
    (sortedEntities exTQ3)[0]? = some (10, 1) ∧
    (sortedEntities exTQ3)[1]? = some (5, 2) ∧
    (sortedEntities exTQ3)[2]? = some (0, 3) ∧
    (∃ layer, exLQplayer 1 = some layer ∧
      exM3[0]? = some (1, layer.as_z_coordinate +
        ((0 : ℕ) : ℚ) * (1 / (exTQ3.length : ℚ)))) ∧
    (∃ layer, exLQplayer 2 = some layer ∧
      exM3[1]? = some (2, layer.as_z_coordinate +
        ((1 : ℕ) : ℚ) * (1 / (exTQ3.length : ℚ)))) ∧
    (∃ layer, exLQplayer 3 = some layer ∧
      exM3[2]? = some (3, layer.as_z_coordinate +
        ((2 : ℕ) : ℚ) * (1 / (exTQ3.length : ℚ)))) := by
  have h := C4_positions_and_offsets exTQ3 exLQplayer exM3 exM3_eval
  have hs0 : (sortedEntities exTQ3)[0]? = some (10, 1) := by decide
  have hs1 : (sortedEntities exTQ3)[1]? = some (5, 2) := by decide
  have hs2 : (sortedEntities exTQ3)[2]? = some (0, 3) := by decide
  exact ⟨exM3_eval, hs0, hs1, hs2,
    h.2.1 0 10 1 hs0, h.2.1 1 5 2 hs1, h.2.1 2 0 3 hs2⟩

/-! ### The write-back loop -/

theorem processSprites_length (sprites : List (ℕ × ExtractedSprite))
    (zFor : ℕ → Option ℚ) :
    (processSprites sprites zFor).1.length = sprites.length := by
  simp [processSprites]

theorem processSprites_fst_some {sprites : List (ℕ × ExtractedSprite)}
    {zFor : ℕ → Option ℚ} {e : ℕ} {z : ℚ} {j : ℕ} {s : ExtractedSprite}
    (hz : zFor e = some z) (hj : sprites[j]? = some (e, s)) :
    (processSprites sprites zFor).1[j]? =
      some (e, (set_sprite_coordinate s z).1) := by
  simp only [processSprites]
  rw [List.getElem?_map, hj]
  simp [hz]

theorem processSprites_fst_none {sprites : List (ℕ × ExtractedSprite)}
    {zFor : ℕ → Option ℚ} {e : ℕ} {j : ℕ} {s : ExtractedSprite}
    (hz : zFor e = none) (hj : sprites[j]? = some (e, s)) :
    (processSprites sprites zFor).1[j]? = some (e, s) := by
  simp only [processSprites]
  rw [List.getElem?_map, hj]
  simp [hz]

theorem processSprites_warns_subset (sprites : List (ℕ × ExtractedSprite))
    (zFor : ℕ → Option ℚ) :
    ∀ x ∈ (processSprites sprites zFor).2, x ∈ sprites.map Prod.fst := by
  intro x hx
  simp only [processSprites] at hx
  obtain ⟨p, hp, hpx⟩ := List.mem_filterMap.mp hx
  cases hzp : zFor p.1 with
  | none => simp [hzp] at hpx
  | some z =>
    simp only [hzp] at hpx
    by_cases hw : (set_sprite_coordinate p.2 z).2 = true
    · rw [if_pos hw] at hpx
      have hxp : x = p.1 := (Option.some.inj hpx).symm
      rw [hxp]
      exact List.mem_map.mpr ⟨p, hp, rfl⟩
    · rw [if_neg hw] at hpx
      simp at hpx

theorem processSprites_count_absent (sprites : List (ℕ × ExtractedSprite))
    (zFor : ℕ → Option ℚ) {e : ℕ} (he : e ∉ sprites.map Prod.fst) :
    ((processSprites sprites zFor).2).count e = 0 :=
  List.count_eq_zero.mpr (fun hmem => he (processSprites_warns_subset _ _ e hmem))

/-- A sprite entity that is assigned a coordinate is warned about exactly
once if its pre-existing z was non-zero, and never otherwise. -/
theorem processSprites_count (sprites : List (ℕ × ExtractedSprite))
    (zFor : ℕ → Option ℚ) (hids : (sprites.map Prod.fst).Nodup)
    {j : ℕ} {e : ℕ} {s : ExtractedSprite} (hj : sprites[j]? = some (e, s)) :
    ((processSprites sprites zFor).2).count e =
      if (zFor e).isSome ∧ s.transform.z ≠ 0 then 1 else 0 := by
  induction sprites generalizing j with
  | nil => simp at hj
  | cons p rest ih =>
    obtain ⟨hnotin, hnd⟩ := List.nodup_cons.mp hids
    simp only [processSprites, List.filterMap_cons]
    cases j with
    | zero =>
      have hpe : p = (e, s) := by simpa using hj
      subst hpe
      have htail : (List.filterMap (fun p =>
          match zFor p.1 with
          | some z => if (set_sprite_coordinate p.2 z).2 then some p.1 else none
          | none => none) rest).count e = 0 := by
        have := processSprites_count_absent rest zFor (e := e) hnotin
        simpa [processSprites] using this
      cases hzf : zFor e with
      | none => simpa [hzf] using htail
      | some z =>
        simp only [hzf]
        by_cases hzero : s.transform.z ≠ 0
        · have hw : (set_sprite_coordinate s z).2 = true := by
            simp [set_sprite_coordinate, hzero]
          rw [if_pos hw]
          simp only [List.count_cons_self, htail, hzf]
          simp [hzero]
        · have hw : (set_sprite_coordinate s z).2 = false := by
            simp [set_sprite_coordinate]
            simpa using hzero
          rw [if_neg (by simp [hw])]
          simp only [htail, hzf]
          simp [hzero]
    | succ j2 =>
      simp only [List.getElem?_cons_succ] at hj
      have hmem : (e, s) ∈ rest := by
        obtain ⟨hlt, hget⟩ := List.getElem?_eq_some.mp hj
        rw [← hget]
        exact List.getElem_mem hlt
      have hein : e ∈ rest.map Prod.fst := List.mem_map.mpr ⟨(e, s), hmem, rfl⟩
      have hne : p.1 ≠ e := fun hpe => hnotin (hpe ▸ hein)
      have hcount := ih hnd hj
      simp only [processSprites] at hcount
      cases hzp : zFor p.1 with
      | none => simpa [hzp] using hcount
      | some z =>
        simp only [hzp]
        by_cases hw : (set_sprite_coordinate p.2 z).2 = true
        · rw [if_pos hw]
          rw [List.count_cons_of_ne (fun hepe => hne hepe.symm)]
          exact hcount
        · rw [if_neg hw]
          exact hcount

/-- `update_sprite_z_coordinate` is the shared write-back loop applied to the
per-mode coordinate function. -/
theorem update_eq_processSprites {sprites : List (ℕ × ExtractedSprite)}
    {o : SpriteLayerOptions} {tq : List (ℕ × GlobalTransform)}
    {lq : ℕ → Option RenderLayers} {out : List (ℕ × ExtractedSprite)}
    {warns : List ℕ}
    (hu : update_sprite_z_coordinate sprites o tq lq = some (out, warns)) :
    out = (processSprites sprites (zForEntity o tq lq)).1 ∧
    warns = (processSprites sprites (zForEntity o tq lq)).2 := by
  cases ho : o.y_sort with
  | false =>
    simp only [update_sprite_z_coordinate, ho, Bool.false_eq_true, if_false,
      Option.some.injEq] at hu
    have hfun : zForEntity o tq lq =
        fun e => (lq e).map RenderLayers.as_z_coordinate := by
      funext e
      simp [zForEntity, ho]
    rw [hfun]
    exact ⟨congrArg Prod.fst hu.symm, congrArg Prod.snd hu.symm⟩
  | true =>
    simp only [update_sprite_z_coordinate, ho, if_true] at hu
    obtain ⟨zmap, hzm, hpair⟩ := Option.map_eq_some'.mp hu
    have hfun : zForEntity o tq lq = fun e => zmap.lookup e := by
      funext e
      simp [zForEntity, ho, hzm]
    rw [hfun]
    exact ⟨congrArg Prod.fst hpair.symm, congrArg Prod.snd hpair.symm⟩

theorem lookup_eq_none_of_not_mem {zmap : List (ℕ × ℚ)} {e : ℕ}
    (h : e ∉ zmap.map Prod.fst) : zmap.lookup e = none := by
  induction zmap with
  | nil => rfl
  | cons p rest ih =>
    simp only [List.map_cons, List.mem_cons] at h
    push_neg at h
    obtain ⟨h1, h2⟩ := h
    obtain ⟨k, b⟩ := p
    simp only [List.lookup]
    have hne : (e == k) = false := by
      simp only [beq_eq_false_iff_ne, ne_eq]
      exact h1
    rw [hne]
    exact ih h2

/-- An entity with no layer tag is assigned no coordinate in either mode
(in dynamic mode because the transform query only collects tagged
entities). -/
theorem zForEntity_none_of_untagged {o : SpriteLayerOptions}
    {tq : List (ℕ × GlobalTransform)} {lq : ℕ → Option RenderLayers}
    (hq : ∀ p ∈ tq, (lq p.1).isSome) {e : ℕ} (he : lq e = none) :
    zForEntity o tq lq e = none := by
  unfold zForEntity
  split
  · cases hm : map_z_indices tq lq with
    | none => rfl
    | some zmap =>
      simp only [Option.some_bind]
      apply lookup_eq_none_of_not_mem
      intro hemem
      rw [map_z_indices_map_fst hm] at hemem
      have htq : e ∈ tq.map Prod.fst := by
        rw [← keyedEntities_map_snd]
        exact ((sortedEntities_perm tq).map Prod.snd).mem_iff.mp hemem
      obtain ⟨p, hp, hpe⟩ := List.mem_map.mp htq
      have hsome := hq p hp
      rw [hpe, he] at hsome
      simp at hsome
  · rw [he]
    rfl

/-- C5: in static mode (y-sort disabled), every extracted sprite whose entity
carries a layer tag gets exactly its layer's base depth written into its
transform — no per-entity offset, independent of world position and of all
other entities. -/
theorem C5_static_passthrough
    (sprites : List (ℕ × ExtractedSprite)) (o : SpriteLayerOptions)
    (tq : List (ℕ × GlobalTransform)) (lq : ℕ → Option RenderLayers)
    (ho : o.y_sort = false)
    (out : List (ℕ × ExtractedSprite)) (warns : List ℕ)
    (hu : update_sprite_z_coordinate sprites o tq lq = some (out, warns))
    (j : ℕ) (e : ℕ) (s : ExtractedSprite) (hj : sprites[j]? = some (e, s))
    (r : RenderLayers) (hl : lq e = some r) :
    out[j]? =
      some (e, ⟨⟨s.transform.x, s.transform.y, r.as_z_coordinate⟩⟩) := by
  obtain ⟨hout, _⟩ := update_eq_processSprites hu
  subst hout
  have hz : zForEntity o tq lq e = some r.as_z_coordinate := by
    simp [zForEntity, ho, hl]
  rw [processSprites_fst_some hz hj]
  rfl

/-- A static-mode frame: one sprite tagged Furniture. -/
def exS5 : List (ℕ × ExtractedSprite) := [(9, ⟨⟨1, 2, 0⟩⟩)]

def exLQ5 : ℕ → Option RenderLayers := fun e =>
  if e = 9 then some (.Single .Furniture) else none

theorem C5_witness :
    update_sprite_z_coordinate exS5 ⟨false⟩ [] exLQ5 =
      some ([(9, ⟨⟨1, 2, 1⟩⟩)], []) ∧
    [((9 : ℕ), (⟨⟨1, 2, 1⟩⟩ : ExtractedSprite))][0]? =
      some (9, ⟨⟨1, 2, (RenderLayers.Single .Furniture).as_z_coordinate⟩⟩) := by
  have hu : update_sprite_z_coordinate exS5 ⟨false⟩ [] exLQ5 =
      some ([(9, ⟨⟨1, 2, 1⟩⟩)], []) := by decide
  exact ⟨hu, C5_static_passthrough exS5 ⟨false⟩ [] exLQ5 rfl _ _ hu
    0 9 ⟨⟨1, 2, 0⟩⟩ (by decide) (.Single .Furniture) rfl⟩

/-- C6: a non-empty Multi tag reports the base depth of a member of maximal
base depth, and a Single tag reports its one layer's base depth. -/
theorem C6_multi_effective_layer
    (layers : List EntityLayer) (hne : layers ≠ []) :
    (∃ l, l ∈ layers ∧
      RenderLayers.as_z_coordinate (.Multi layers) =
        as_z_coordinate_internal l ∧
      ∀ l2 ∈ layers,
        as_z_coordinate_internal l2 ≤ as_z_coordinate_internal l) ∧
    ∀ l0 : EntityLayer,
      RenderLayers.as_z_coordinate (.Single l0) =
        as_z_coordinate_internal l0 := by
  refine ⟨?_, fun l0 => rfl⟩
  cases hx : max_by_z layers with
  | none =>
    cases layers with
    | nil => exact absurd rfl hne
    | cons a xs => simp [max_by_z] at hx
  | some x =>
    refine ⟨x, max_by_z_mem hx, ?_, max_by_z_le hx⟩
    simp [RenderLayers.as_z_coordinate, hx]

theorem C6_witness :
    ([EntityLayer.Background, EntityLayer.Object] ≠ []) ∧
    (∃ l, l ∈ [EntityLayer.Background, EntityLayer.Object] ∧
      RenderLayers.as_z_coordinate (.Multi [.Background, .Object]) =
        as_z_coordinate_internal l ∧
      ∀ l2 ∈ [EntityLayer.Background, EntityLayer.Object],
        as_z_coordinate_internal l2 ≤ as_z_coordinate_internal l) ∧
    RenderLayers.as_z_coordinate (.Multi [.Background, .Object]) = 2 := by
  refine ⟨by decide, ?_, by decide⟩
  exact (C6_multi_effective_layer [.Background, .Object] (by decide)).1

/-- C7 counterexample: the empty Multi tag is a perfectly constructible
value — no construction-time validation exists anywhere — and
`as_z_coordinate` silently substitutes the default base depth `0.0` for it,
the very base depth of the Debugging layer.  This refutes the claim that an
empty Multi set is rejected at construction with the error surfaced. -/
theorem C7_counterexample :
    RenderLayers.as_z_coordinate (.Multi []) = 0 ∧
    RenderLayers.as_z_coordinate (.Multi []) =
      RenderLayers.as_z_coordinate (.Single .Debugging) :=
  ⟨rfl, rfl⟩

/-- C7 (amended): constructing a Multi tag with an empty layer set is not
rejected — the subsystem performs no validation; an entity tagged with the
empty Multi set is processed normally by the per-frame pass, its base depth
silently defaulting to `0.0` (the `map_or` default). -/
theorem C7_empty_multi_accepted :
    RenderLayers.as_z_coordinate (.Multi []) = 0 ∧
    update_sprite_z_coordinate [(7, ⟨⟨1, 2, 0⟩⟩)] ⟨false⟩ []
      (fun _ => some (.Multi [])) = some ([(7, ⟨⟨1, 2, 0⟩⟩)], []) :=
  ⟨rfl, by decide⟩

/-- C8: a sprite that is assigned a coordinate this frame is warned about
exactly once when its pre-existing z was non-zero and never when it was
zero; the pre-existing depth is overwritten with the computed coordinate
regardless, and the frame completes (the update returned a result). -/
theorem C8_warning_semantics
    (sprites : List (ℕ × ExtractedSprite)) (o : SpriteLayerOptions)
    (tq : List (ℕ × GlobalTransform)) (lq : ℕ → Option RenderLayers)
    (out : List (ℕ × ExtractedSprite)) (warns : List ℕ)
    (hu : update_sprite_z_coordinate sprites o tq lq = some (out, warns))
    (hids : (sprites.map Prod.fst).Nodup)
    (j : ℕ) (e : ℕ) (s : ExtractedSprite) (hj : sprites[j]? = some (e, s))
    (z : ℚ) (hz : zForEntity o tq lq e = some z) :
    warns.count e = (if s.transform.z ≠ 0 then 1 else 0) ∧
    out[j]? = some (e, ⟨⟨s.transform.x, s.transform.y, z⟩⟩) := by
  obtain ⟨hout, hwarns⟩ := update_eq_processSprites hu
  subst hout
  subst hwarns
  constructor
  · rw [processSprites_count sprites (zForEntity o tq lq) hids hj]
    simp [hz]
  · rw [processSprites_fst_some hz hj]
    rfl

/-- A dynamic-mode frame with a single Player sprite whose transform z is
already 5 before the subsystem runs. -/
def exS8 : List (ℕ × ExtractedSprite) := [(3, ⟨⟨1, 4, 5⟩⟩)]

def exTQ8 : List (ℕ × GlobalTransform) := [(3, ⟨1, 4, 5⟩)]

def exLQ8 : ℕ → Option RenderLayers := fun e =>
  if e = 3 then some (.Single .Player) else none

theorem C8_witness :
    update_sprite_z_coordinate exS8 ⟨true⟩ exTQ8 exLQ8 =
      some ([(3, ⟨⟨1, 4, 20⟩⟩)], [3]) ∧
    List.count 3 [3] = 1 ∧
    [((3 : ℕ), (⟨⟨1, 4, 20⟩⟩ : ExtractedSprite))][0]? =
      some (3, ⟨⟨1, 4, 20⟩⟩) := by
  have hu : update_sprite_z_coordinate exS8 ⟨true⟩ exTQ8 exLQ8 =
      some ([(3, ⟨⟨1, 4, 20⟩⟩)], [3]) := by
    norm_num [update_sprite_z_coordinate, map_z_indices, sortedEntities,
      keyedEntities, assignZ, exS8, exTQ8, exLQ8, processSprites,
      set_sprite_coordinate, RenderLayers.as_z_coordinate,
      as_z_coordinate_internal, List.insertionSort, List.orderedInsert,
      keyLEp, List.lookup, List.filterMap_cons, List.filterMap_nil,
      List.map_cons, List.map_nil, beq_iff_eq]
  have hzf : zForEntity ⟨true⟩ exTQ8 exLQ8 3 = some 20 := by
    norm_num [zForEntity, map_z_indices, sortedEntities, keyedEntities,
      assignZ, exTQ8, exLQ8, RenderLayers.as_z_coordinate,
      as_z_coordinate_internal, List.insertionSort, List.orderedInsert,
      keyLEp, List.lookup]
  have h := C8_warning_semantics exS8 ⟨true⟩ exTQ8 exLQ8 _ _ hu (by decide)
    0 3 ⟨⟨1, 4, 5⟩⟩ (by decide) 20 hzf
  refine ⟨hu, ?_, h.2⟩
  rw [h.1]
  norm_num

/-- C9: the per-frame write modifies only the z component of sprites it
covers — x and y are preserved for every sprite and the id column is
unchanged — and a sprite whose entity carries no layer tag is left entirely
unmodified, in either mode. -/
theorem C9_only_z_modified
    (sprites : List (ℕ × ExtractedSprite)) (o : SpriteLayerOptions)
    (tq : List (ℕ × GlobalTransform)) (lq : ℕ → Option RenderLayers)
    (out : List (ℕ × ExtractedSprite)) (warns : List ℕ)
    (hu : update_sprite_z_coordinate sprites o tq lq = some (out, warns))
    (hq : ∀ p ∈ tq, (lq p.1).isSome) :
    out.length = sprites.length ∧
    (∀ (j : ℕ) (e : ℕ) (s : ExtractedSprite), sprites[j]? = some (e, s) →
      ∃ s2 : ExtractedSprite, out[j]? = some (e, s2) ∧
        s2.transform.x = s.transform.x ∧
        s2.transform.y = s.transform.y) ∧
    (∀ (j : ℕ) (e : ℕ) (s : ExtractedSprite), sprites[j]? = some (e, s) →
      lq e = none → out[j]? = some (e, s)) := by
  obtain ⟨hout, _⟩ := update_eq_processSprites hu
  subst hout
  refine ⟨processSprites_length _ _, ?_, ?_⟩
  · intro j e s hj
    cases hz : zForEntity o tq lq e with
    | none => exact ⟨s, processSprites_fst_none hz hj, rfl, rfl⟩
    | some z =>
      exact ⟨(set_sprite_coordinate s z).1, processSprites_fst_some hz hj,
        rfl, rfl⟩
  · intro j e s hj he
    exact processSprites_fst_none (zForEntity_none_of_untagged hq he) hj

/-- A dynamic-mode frame with one tagged and one untagged sprite. -/
def exS9 : List (ℕ × ExtractedSprite) := [(3, ⟨⟨1, 4, 0⟩⟩), (7, ⟨⟨2, 9, 0⟩⟩)]

def exTQ9 : List (ℕ × GlobalTransform) := [(3, ⟨1, 4, 0⟩)]

theorem C9_witness :
    update_sprite_z_coordinate exS9 ⟨true⟩ exTQ9 exLQ8 =
      some ([(3, ⟨⟨1, 4, 20⟩⟩), (7, ⟨⟨2, 9, 0⟩⟩)], []) ∧
    [((3 : ℕ), (⟨⟨1, 4, 20⟩⟩ : ExtractedSprite)),
      (7, ⟨⟨2, 9, 0⟩⟩)].length = exS9.length ∧
    (∃ s2 : ExtractedSprite,
      [((3 : ℕ), (⟨⟨1, 4, 20⟩⟩ : ExtractedSprite)),
        (7, ⟨⟨2, 9, 0⟩⟩)][0]? = some (3, s2) ∧
      s2.transform.x = 1 ∧ s2.transform.y = 4) ∧
    [((3 : ℕ), (⟨⟨1, 4, 20⟩⟩ : ExtractedSprite)),
      (7, ⟨⟨2, 9, 0⟩⟩)][1]? = some (7, ⟨⟨2, 9, 0⟩⟩) := by
  have hu : update_sprite_z_coordinate exS9 ⟨true⟩ exTQ9 exLQ8 =
      some ([(3, ⟨⟨1, 4, 20⟩⟩), (7, ⟨⟨2, 9, 0⟩⟩)], []) := by
    have h73 : ((7 : ℕ) == 3) = false := rfl
    norm_num [update_sprite_z_coordinate, map_z_indices, sortedEntities,
      keyedEntities, assignZ, exS9, exTQ9, exLQ8, processSprites,
      set_sprite_coordinate, RenderLayers.as_z_coordinate,
      as_z_coordinate_internal, List.insertionSort, List.orderedInsert,
      keyLEp, List.lookup, List.filterMap_cons, List.filterMap_nil,
      List.map_cons, List.map_nil, beq_iff_eq, h73]
  have h := C9_only_z_modified exS9 ⟨true⟩ exTQ9 exLQ8 _ _ hu (by decide)
  exact ⟨hu, h.1,
    h.2.1 0 3 ⟨⟨1, 4, 0⟩⟩ (by decide),
    h.2.2 1 7 ⟨⟨2, 9, 0⟩⟩ (by decide) rfl⟩

/-- C10: the per-frame computation is total.  An empty snapshot yields the
empty mapping (the division `1.0 / 0` never being applied to any element),
and whenever every collected entity has a layer — which the `With<Layer>`
query filter guarantees in the engine — the unwrap in `map_z_indices` cannot
panic and the whole update completes. -/
theorem C10_totality
    (sprites : List (ℕ × ExtractedSprite)) (o : SpriteLayerOptions)
    (tq : List (ℕ × GlobalTransform)) (lq : ℕ → Option RenderLayers)
    (hq : ∀ p ∈ tq, (lq p.1).isSome) :
    map_z_indices [] lq = some [] ∧
    (map_z_indices tq lq).isSome ∧
    (update_sprite_z_coordinate sprites o tq lq).isSome := by
  have hsome : (map_z_indices tq lq).isSome := by
    unfold map_z_indices
    apply assignZ_isSome
    intro p hp
    have hk : p ∈ keyedEntities tq := (sortedEntities_perm tq).mem_iff.mp hp
    obtain ⟨q, hq2, hqe⟩ := List.mem_map.mp hk
    have hq1 : p.2 = q.1 := by rw [← hqe]
    rw [hq1]
    exact hq q hq2
  refine ⟨rfl, hsome, ?_⟩
  unfold update_sprite_z_coordinate
  split
  · obtain ⟨zmap, hzm⟩ := Option.isSome_iff_exists.mp hsome
    rw [hzm]
    rfl
  · rfl

theorem C10_witness :
    map_z_indices [] exLQ8 = some [] ∧
    (map_z_indices exTQ9 exLQ8).isSome ∧
    (update_sprite_z_coordinate exS9 ⟨true⟩ exTQ9 exLQ8).isSome :=
  C10_totality exS9 ⟨true⟩ exTQ9 exLQ8 (by decide)
